import Mathlib

/-!
Verification of the raytracer repository core against its specification.

The Rust source is shallowly embedded over exact rationals (`ℚ` stands in
for `f64`; floating-point rounding is outside the model).  The two
primitive operations of `f64` with no rational counterpart, `sqrt` and
`powf`, are abstracted into a `FloatOps` record threaded through every
definition that the source computes them in; theorems that depend on their
behaviour carry explicit hypotheses about the values actually used, and
concrete evaluations instantiate them with `probeFops`, which is exact on
the perfect squares appearing in those evaluations.

Panics in the Rust source (`unwrap`, `expect`) are modelled by `Option`:
a function that can panic returns `none` on the panicking path.
-/

namespace RT


/-- MAX_DIFF / EPSILON from src/math/float.rs (0.00001). -/
def EPSILON : ℚ := 1 / 100000

/-- equal from src/math/float.rs: tolerance comparison of two scalars. -/
def floatEqual (a b : ℚ) : Prop := |a - b| < EPSILON

instance (a b : ℚ) : Decidable (floatEqual a b) := by
  unfold floatEqual
  infer_instance

/-- Abstraction of the `f64` primitives `sqrt` and `powf`, which have no
exact rational implementation.  Every embedded function that the source
computes a square root or power in takes a `FloatOps`. -/
structure FloatOps where
  sqrt : ℚ → ℚ
  pow : ℚ → ℚ → ℚ

/-- Tuple from src/math/tuple.rs: homogeneous 4-component tuple. -/
structure Tuple where
  x : ℚ
  y : ℚ
  z : ℚ
  w : ℚ
deriving DecidableEq

/-- ZERO constant from src/math/tuple.rs. -/
def Tuple.ZERO : Tuple := ⟨0, 0, 0, 0⟩

/-- Tuple::vector. -/
def Tuple.vector (x y z : ℚ) : Tuple := ⟨x, y, z, 0⟩

/-- Tuple::point. -/
def Tuple.point (x y z : ℚ) : Tuple := ⟨x, y, z, 1⟩

/-- Add for Tuple (componentwise). -/
instance : Add Tuple := ⟨fun a b => ⟨a.x + b.x, a.y + b.y, a.z + b.z, a.w + b.w⟩⟩

/-- Sub for Tuple (componentwise). -/
instance : Sub Tuple := ⟨fun a b => ⟨a.x - b.x, a.y - b.y, a.z - b.z, a.w - b.w⟩⟩

/-- Neg for Tuple (componentwise). -/
instance : Neg Tuple := ⟨fun a => ⟨-a.x, -a.y, -a.z, -a.w⟩⟩

/-- Mul<f64> for Tuple (scale every component). -/
instance : HMul Tuple ℚ Tuple := ⟨fun a s => ⟨a.x * s, a.y * s, a.z * s, a.w * s⟩⟩

/-- Tuple::dot (over all four components, as in the source). -/
def Tuple.dot (a b : Tuple) : ℚ := a.x * b.x + a.y * b.y + a.z * b.z + a.w * b.w

/-- Tuple::reflect: v − normal·2·(v·normal). -/
def Tuple.reflect (v normal : Tuple) : Tuple := v - normal * (2 * v.dot normal)

/-- Tuple::magnitude: sqrt of the sum of squared components. -/
def Tuple.magnitude (fops : FloatOps) (t : Tuple) : ℚ :=
  fops.sqrt (t.x ^ 2 + t.y ^ 2 + t.z ^ 2 + t.w ^ 2)

/-- Tuple::normalize: divide every component by the magnitude. -/
def Tuple.normalize (fops : FloatOps) (t : Tuple) : Tuple :=
  ⟨t.x / t.magnitude fops, t.y / t.magnitude fops,
   t.z / t.magnitude fops, t.w / t.magnitude fops⟩

/-- PartialEq for Tuple from the source: componentwise tolerance equality. -/
def Tuple.feq (a b : Tuple) : Prop :=
  floatEqual a.x b.x ∧ floatEqual a.y b.y ∧ floatEqual a.z b.z ∧ floatEqual a.w b.w

instance (a b : Tuple) : Decidable (a.feq b) := by
  unfold Tuple.feq
  infer_instance

/-- Colour from src/colour.rs. -/
structure Colour where
  red : ℚ
  green : ℚ
  blue : ℚ
deriving DecidableEq

/-- Colour::BLACK. -/
def Colour.BLACK : Colour := ⟨0, 0, 0⟩

/-- Add for Colour (componentwise). -/
instance : Add Colour := ⟨fun a b => ⟨a.red + b.red, a.green + b.green, a.blue + b.blue⟩⟩

/-- Mul for Colour (componentwise, the Hadamard product used for effective colour). -/
instance : Mul Colour := ⟨fun a b => ⟨a.red * b.red, a.green * b.green, a.blue * b.blue⟩⟩

/-- Mul<f64> for Colour. -/
instance : HMul Colour ℚ Colour := ⟨fun a s => ⟨a.red * s, a.green * s, a.blue * s⟩⟩

/-- Div<f64> for Colour. -/
instance : HDiv Colour ℚ Colour := ⟨fun a s => ⟨a.red / s, a.green / s, a.blue / s⟩⟩

/-- Entry grid of a matrix: row index then column index, as
`self[(row, col)] = data[width*row + col]` reads in src/math/matrix.rs.
Reads outside the width×height bounds never occur in the embedded
operations and return junk. -/
def MatEntry : Type := Nat → Nat → ℚ

/-- Matrix from src/math/matrix.rs.  The source stores a flat `Vec<f64>`
with a width and height; the embedding keeps the dimensions and models the
data by its indexing function.  All matrices the program builds and
operates on are square, so the determinant recursion is driven by the
width alone. -/
structure Matrix where
  width : Nat
  height : Nat
  entry : MatEntry

/-- Matrix::submatrix on the entry grid: delete row `r` and column `c`,
keeping the remaining entries in order (the source pushes every entry with
row ≠ r and col ≠ c in row-major order). -/
def subEntry (m : MatEntry) (r c : Nat) : MatEntry :=
  fun i j => m (if i < r then i else i + 1) (if j < c then j else j + 1)

/-- Row-0 cofactor expansion sum over columns 0..c−1: each term is
`m[0][col] * cofactor(0, col)` where `cofactor(0, col)` is the minor
(computed by the determinant `d` of the one-size-smaller submatrix)
with the sign of `(0 + col) % 2`, accumulated left-to-right as the
source's iterator `sum` does. -/
def cofacSum (d : MatEntry → ℚ) (m : MatEntry) : Nat → ℚ
  | 0 => 0
  | c + 1 =>
    cofacSum d m c +
      m 0 c * (if (0 + c) % 2 = 0 then d (subEntry m 0 c) else -d (subEntry m 0 c))

/-- Matrix::determinate from src/math/matrix.rs, on an n×n entry grid:
the direct formula for the 2×2 base case, otherwise cofactor expansion
along row 0 with recursive (n−1)×(n−1) minors.  (For n ≤ 1 the source's
general branch yields 0: an empty sum for n = 0, and for n = 1 a single
term multiplied by the 0×0 determinant, which is an empty sum.) -/
def detAux : Nat → MatEntry → ℚ
  | 0, _ => 0
  | 1, m => cofacSum (detAux 0) m 1
  | 2, m => m 0 0 * m 1 1 - m 0 1 * m 1 0
  | n + 3, m => cofacSum (detAux (n + 2)) m (n + 3)

/-- Matrix::determinate. -/
def Matrix.determinate (m : Matrix) : ℚ := detAux m.width m.entry

/-- Matrix::submatrix. -/
def Matrix.submatrix (m : Matrix) (r c : Nat) : Matrix :=
  ⟨m.width - 1, m.height - 1, subEntry m.entry r c⟩

/-- Matrix::minor: determinant of the submatrix. -/
def Matrix.minor (m : Matrix) (r c : Nat) : ℚ := (m.submatrix r c).determinate

/-- Matrix::cofactor: the minor, negated when row+col is odd. -/
def Matrix.cofactor (m : Matrix) (r c : Nat) : ℚ :=
  if (r + c) % 2 = 0 then m.minor r c else -(m.minor r c)

/-- Matrix::inverse: `None` when the determinant is zero, otherwise the
4×4 matrix with `out[(col, row)] = cofactor(row, col) / determinate`
(the transposition is applied by swapping the indices, as in the source). -/
def Matrix.inverse (m : Matrix) : Option Matrix :=
  if m.determinate = 0 then none
  else some ⟨4, 4, fun i j => m.cofactor j i / m.determinate⟩

/-- Matrix::transpose (entry grid: swap the indices; the source flattens
the columns of the input as the rows of the output). -/
def Matrix.transpose (m : Matrix) : Matrix :=
  ⟨m.width, m.height, fun i j => m.entry j i⟩

/-- Row `i` of a 4-column matrix as a Tuple (From<matrix::Ref> for Tuple). -/
def Matrix.rowTuple (m : Matrix) (i : Nat) : Tuple :=
  ⟨m.entry i 0, m.entry i 1, m.entry i 2, m.entry i 3⟩

/-- Mul<Tuple> for Matrix: each component is the tuple dotted with the
corresponding row of the matrix. -/
def Matrix.mulTuple (m : Matrix) (t : Tuple) : Tuple :=
  ⟨t.dot (m.rowTuple 0), t.dot (m.rowTuple 1), t.dot (m.rowTuple 2), t.dot (m.rowTuple 3)⟩

/-- IDENTITY_4X4 from src/math/matrix.rs. -/
def identityM : Matrix := ⟨4, 4, fun i j => if i = j then 1 else 0⟩

/-- Matrix::translation from src/math/matrix/transform.rs: clone the
identity, then set entries (0,3), (1,3), (2,3) to x, y, z. -/
def Matrix.translation (x y z : ℚ) : Matrix :=
  ⟨4, 4, fun i j =>
    if i = 0 ∧ j = 3 then x
    else if i = 1 ∧ j = 3 then y
    else if i = 2 ∧ j = 3 then z
    else if i = j then 1 else 0⟩

/-- Matrix::scaling from src/math/matrix/transform.rs: clone the identity,
then set entries (0,0), (1,1), (2,2) to x, y, z. -/
def Matrix.scaling (x y z : ℚ) : Matrix :=
  ⟨4, 4, fun i j =>
    if i = 0 ∧ j = 0 then x
    else if i = 1 ∧ j = 1 then y
    else if i = 2 ∧ j = 2 then z
    else if i = j then 1 else 0⟩


/-- Ray from src/ray.rs: origin (a point) and direction (a vector).
The constructor's debug assertions on `w` are preconditions; every ray
built in this development satisfies them. -/
structure Ray where
  origin : Tuple
  direction : Tuple

/-- Ray::position: origin + direction · t. -/
def Ray.position (r : Ray) (dst : ℚ) : Tuple := r.origin + r.direction * dst

/-- Ray::transform: apply a matrix to origin and direction. -/
def Ray.transformM (r : Ray) (m : Matrix) : Ray :=
  ⟨m.mulTuple r.origin, m.mulTuple r.direction⟩

/-- Material from src/materials.rs. -/
structure Material where
  colour : Colour
  ambient : ℚ
  diffuse : ℚ
  specular : ℚ
  shininess : ℚ
deriving DecidableEq

/-- Default for Material: white, 0.1 ambient, 0.9 diffuse, 0.9 specular,
200 shininess. -/
def Material.default : Material := ⟨⟨1, 1, 1⟩, 1 / 10, 9 / 10, 9 / 10, 200⟩

/-- Sphere from src/shape/sphere.rs: a unique id, a transform and a
material.  The claims under verification only ever intersect spheres, so
the embedding specializes the `dyn Shape` trait objects stored in
intersections and worlds to `Sphere`. -/
structure Sphere where
  id : Nat
  transform : Matrix
  material : Material

/-- Sphere::new: identity transform and default material. -/
def Sphere.new (id : Nat) : Sphere := ⟨id, identityM, Material.default⟩

/-- Intersection from src/intersection.rs: a scalar parameter t and the
shape hit. -/
structure Intersection where
  t : ℚ
  object : Sphere

/-- First-minimum-by-t fold over a list of intersections, as Rust's
`Iterator::min_by` with `total_cmp`: the earliest element with minimal t. -/
def minByT : List Intersection → Option Intersection
  | [] => none
  | x :: rest => some (rest.foldl (fun acc y => if y.t < acc.t then y else acc) x)

/-- IntersectVec::hit from src/intersection.rs: keep the intersections
with t ≥ 0, then take the minimum by t. -/
def hit (xs : List Intersection) : Option Intersection :=
  minByT (xs.filter (fun i => 0 ≤ i.t))

/-- Sphere::intersect from src/shape/sphere.rs: transform the ray by the
inverse of the sphere's transform (the source's `expect` on a
non-invertible transform is modelled as `none`, a case no claim
exercises), then solve the quadratic against the unit sphere at the
origin: no intersections when the discriminant is negative, otherwise the
two roots, smaller first, tangent and behind-the-origin cases included. -/
def Sphere.intersect (fops : FloatOps) (s : Sphere) (ray : Ray) :
    Option (List Intersection) :=
  match s.transform.inverse with
  | none => none
  | some inv =>
    let lray := ray.transformM inv
    let s2r := lray.origin - Tuple.point 0 0 0
    let a := lray.direction.dot lray.direction
    let b := 2 * lray.direction.dot s2r
    let c := s2r.dot s2r - 1
    let discriminant := b ^ 2 - 4 * a * c
    if discriminant < 0 then none
    else
      let disroot := fops.sqrt discriminant
      some [⟨(-b - disroot) / (2 * a), s⟩, ⟨(-b + disroot) / (2 * a), s⟩]

/-- Sphere's normal_at from src/shape/sphere.rs: move the point to local
space by the inverse transform, subtract the all-zero tuple, push the
local normal back through the transposed inverse, force w to 0, and
normalize.  `none` models the source's `expect` on a non-invertible
transform. -/
def Sphere.normalAt (fops : FloatOps) (s : Sphere) (point : Tuple) : Option Tuple :=
  match s.transform.inverse with
  | none => none
  | some inv =>
    let objectPoint := inv.mulTuple point
    let objectNormal := objectPoint - Tuple.ZERO
    let worldNormal := inv.transpose.mulTuple objectNormal
    some (Tuple.normalize fops ⟨worldNormal.x, worldNormal.y, worldNormal.z, 0⟩)

/-- PointLight from src/lights.rs: an intensity colour and a position.
The `Light` trait has this single implementation, so the embedding
specializes the trait objects held by worlds to `PointLight`. -/
structure PointLight where
  intensity : Colour
  position : Tuple

/-- World from src/world.rs: shapes and lights. -/
structure World where
  objects : List Sphere
  light : List PointLight

/-- Modelled from the spec: `Material::lighting` with the `in_shadow`
flag.  src/materials.rs holds an earlier four-argument version without
the flag, while src/world.rs already calls the five-argument one; the
missing revision is reconstructed from §4.5 of the spec: effective colour
and ambient term first, ambient alone when shadowed, diffuse and specular
black when the light is behind the surface, specular black when the
reflection points away from the eye, else the Phong specular with the
shininess power. -/
def lighting (fops : FloatOps) (m : Material) (light : PointLight)
    (point eyeVec normalVec : Tuple) (inShadow : Bool) : Colour :=
  let effectiveColour := m.colour * light.intensity
  let ambientLight := effectiveColour * m.ambient
  if inShadow then ambientLight
  else
    let lightVec := Tuple.normalize fops (light.position - point)
    let lightDotNormal := lightVec.dot normalVec
    if lightDotNormal < 0 then ambientLight + Colour.BLACK + Colour.BLACK
    else
      let diffuse := effectiveColour * m.diffuse * lightDotNormal
      let reflectVec := (-lightVec).reflect normalVec
      let reflectDotEye := reflectVec.dot eyeVec
      if reflectDotEye ≤ 0 then ambientLight + diffuse + Colour.BLACK
      else
        let specular := light.intensity * m.specular * fops.pow reflectDotEye m.shininess
        ambientLight + diffuse + specular

/-- IntersectionComputions from src/intersection.rs, with the `over_point`
field that src/world.rs reads.  The field is modelled from the spec, see
`Intersection.prepareComputations`. -/
structure IntersectionComputions where
  object : Sphere
  t : ℚ
  point : Tuple
  over_point : Tuple
  eye_vector : Tuple
  normal_vector : Tuple
  inside : Bool

/-- Intersection::prepare_computations from src/intersection.rs: the hit
point, the shape normal there, the eye vector as the negated ray
direction, the `inside` flag when normal·eye < 0, and the normal negated
in that case.  The `over_point` field is modelled from the spec (§4.3):
point + normal·ε with the already-flipped normal, the offset applied
after the flip.  `none` models the panic of the shape's normal
computation on a non-invertible transform. -/
def Intersection.prepareComputations (fops : FloatOps) (i : Intersection)
    (ray : Ray) : Option IntersectionComputions :=
  match Sphere.normalAt fops i.object (ray.position i.t) with
  | none => none
  | some normalVector =>
    let point := ray.position i.t
    let eyeVector := -ray.direction
    let inside := normalVector.dot eyeVector < 0
    let finalNormal := if inside then -normalVector else normalVector
    some
      { object := i.object
        t := i.t
        point := point
        over_point := point + finalNormal * EPSILON
        eye_vector := eyeVector
        normal_vector := finalNormal
        inside := inside }

/-- World::intersect_world from src/world.rs: gather the intersections of
every shape (a failed individual intersection contributes nothing, as
`unwrap_or_default` does), then sort ascending by t.  The source's stable
`sort_by` with `total_cmp` is modelled by insertion sort on t; no claim
verified here depends on the order of intersections with equal t. -/
def World.intersectWorld (fops : FloatOps) (w : World) (ray : Ray) :
    List Intersection :=
  (w.objects.flatMap (fun s => (Sphere.intersect fops s ray).getD [])).insertionSort
    (fun a b => a.t ≤ b.t)

/-- World::is_shadowed_by from src/world.rs: cast a ray from the point
toward the light; shadowed iff the hit of the world intersections of that
ray exists and lies strictly nearer than the light. -/
def World.isShadowedBy (fops : FloatOps) (w : World) (light : PointLight)
    (point : Tuple) : Bool :=
  let v := light.position - point
  let distance := v.magnitude fops
  let direction := v.normalize fops
  let xs := w.intersectWorld fops ⟨point, direction⟩
  match hit xs with
  | none => false
  | some h => h.t < distance

/-- World::shade_hit from src/world.rs: one colour per light through
`lighting` with that light's shadow state at the over point, combined by
`reduce(|acc, c| acc + c / count)` with `count` the number of lights.
`none` models the panic of the source's `unwrap` on an empty light list. -/
def World.shadeHit (fops : FloatOps) (w : World) (comps : IntersectionComputions) :
    Option Colour :=
  let count : ℚ := w.light.length
  match w.light.map (fun l =>
      lighting fops comps.object.material l comps.over_point comps.eye_vector
        comps.normal_vector (w.isShadowedBy fops l comps.over_point)) with
  | [] => none
  | c0 :: rest => some (rest.foldl (fun acc c => acc + c / count) c0)

/-- World::colour_at from src/world.rs: black when the ray hits nothing,
otherwise shade the prepared hit.  `none` models a panic in shading (no
lights) or preparation. -/
def World.colourAt (fops : FloatOps) (w : World) (ray : Ray) : Option Colour :=
  let xs := w.intersectWorld fops ray
  match hit xs with
  | none => some Colour.BLACK
  | some h =>
    match h.prepareComputations fops ray with
    | none => none
    | some comps => w.shadeHit fops comps

/-- Canvas from src/canvas.rs: a width, a height and a flat row-major
store of colours, indexed by `width*y + x`. -/
structure Canvas where
  width : Nat
  height : Nat
  data : List Colour

/-- Canvas::new: every pixel starts as the default colour (all zero). -/
def Canvas.new (width height : Nat) : Canvas :=
  ⟨width, height, List.replicate (width * height) ⟨0, 0, 0⟩⟩

/-- IndexMut for Canvas: write one pixel at `width*y + x`. -/
def Canvas.write (c : Canvas) (x y : Nat) (col : Colour) : Canvas :=
  ⟨c.width, c.height, c.data.set (c.width * y + x) col⟩

/-- Index for Canvas: read one pixel at `width*y + x`. -/
def Canvas.atPix (c : Canvas) (x y : Nat) : Colour :=
  (c.data[c.width * y + x]?).getD ⟨0, 0, 0⟩

/-- Camera::render from src/camera.rs, with the per-pixel computation
`world.colour_at(self.ray_for_pixel(x, y))` abstracted as `pc` (the same
expression appears verbatim in both render modes; the claims about the
render scheduler concern the pixel bookkeeping around it): loop over x,
then y, writing each pixel in place. -/
def render (pc : Nat → Nat → Colour) (hsize vsize : Nat) : Canvas :=
  (List.range hsize).foldl
    (fun c x => (List.range vsize).foldl (fun c y => c.write x y (pc x y)) c)
    (Canvas.new hsize vsize)

/-- The x-major pixel index list `(0..hsize).flat_map(|x| (0..vsize).map(|y| (x,y)))`
that Camera::render_parallel chunks into work units. -/
def workList (hsize vsize : Nat) : List (Nat × Nat) :=
  (List.range hsize).flatMap (fun x => (List.range vsize).map (fun y => (x, y)))

/-- Write a colour into the canvas for every pixel coordinate of the
list, in list order, each receiving the per-pixel colour `pc x y` that a
render worker computes and sends. -/
def writeAll (pc : Nat → Nat → Colour) (l : List (Nat × Nat)) (c : Canvas) : Canvas :=
  l.foldl (fun c p => c.write p.1 p.2 (pc p.1 p.2)) c

/-- Camera::render_parallel from src/camera.rs: the pixel list is split
into chunks of `(hsize*vsize)/16`; `slice::chunks` panics when that count
is zero (hsize*vsize < 16), modelled as `none`.  Each worker sends
`(x, y, colour)` messages in chunk order through one channel and the
collector writes them into the canvas in arrival order; `arrival` is that
arrival order, some interleaving of the per-chunk streams — every such
interleaving is a permutation of the chunked list, which is the work list
itself, and the theorems quantify over all permutations. -/
def renderParallel (pc : Nat → Nat → Colour) (hsize vsize : Nat)
    (arrival : List (Nat × Nat)) : Option Canvas :=
  if hsize * vsize / 16 = 0 then none
  else some (writeAll pc arrival (Canvas.new hsize vsize))

/-- Concrete FloatOps used by the closed witnesses: a finite table of the
square roots and the powers actually evaluated there, exact at those
inputs (f64::sqrt and f64::powf are exact on them as well). -/
def probeFops : FloatOps :=
  ⟨fun q => if q = 1 then 1 else if q = 4 then 2 else if q = 100 then 10 else 0,
   fun b _ => if b = 1 then 1 else 0⟩

/-- Unfolding equation: empty cofactor expansion sum. -/
theorem cofacSum_zero (d : MatEntry → ℚ) (m : MatEntry) : cofacSum d m 0 = 0 := rfl

/-- Unfolding equation: one step of the cofactor expansion sum. -/
theorem cofacSum_succ (d : MatEntry → ℚ) (m : MatEntry) (c : Nat) :
    cofacSum d m (c + 1) = cofacSum d m c +
      m 0 c * (if (0 + c) % 2 = 0 then d (subEntry m 0 c) else -d (subEntry m 0 c)) := rfl

/-- Unfolding equation: the 2×2 determinant base case. -/
theorem detAux_two (m : MatEntry) : detAux 2 m = m 0 0 * m 1 1 - m 0 1 * m 1 0 := rfl

/-- Unfolding equation: a 3×3 determinant is the row-0 cofactor expansion. -/
theorem detAux_three (m : MatEntry) : detAux 3 m = cofacSum (detAux 2) m 3 := rfl

/-- Unfolding equation: a 4×4 determinant is the row-0 cofactor expansion. -/
theorem detAux_four (m : MatEntry) : detAux 4 m = cofacSum (detAux 3) m 4 := rfl

/-- Exactly equal tuples are equal under the source's tolerance equality. -/
theorem Tuple.feq_of_eq {a b : Tuple} (h : a = b) : a.feq b := by
  subst h
  refine ⟨?_, ?_, ?_, ?_⟩ <;> simp [floatEqual, EPSILON]

/-- Correctness of the source's cofactor-matrix inversion over exact
arithmetic: for a 4×4 matrix whose `inverse` succeeds, applying the
inverse to `M * t` restores `t` exactly.  Proved from the sixteen
column-expansion identities of the cofactors. -/
theorem inverse_mulTuple_exact (M : Matrix) (t : Tuple) (inv : Matrix)
    (hw : M.width = 4) (hinv : M.inverse = some inv) :
    inv.mulTuple (M.mulTuple t) = t := by
  have hD : M.determinate ≠ 0 := by
    intro h
    rw [Matrix.inverse, if_pos h] at hinv
    exact Option.noConfusion hinv
  rw [Matrix.inverse, if_neg hD] at hinv
  have hinv2 := Option.some.inj hinv
  subst hinv2
  obtain ⟨tx, ty, tz, tw⟩ := t
  have h00 : M.entry 0 0 * M.cofactor 0 0 + M.entry 1 0 * M.cofactor 1 0 + M.entry 2 0 * M.cofactor 2 0 + M.entry 3 0 * M.cofactor 3 0 = M.determinate := by
    simp [Matrix.cofactor, Matrix.minor, Matrix.submatrix,
      Matrix.determinate, hw, detAux_four, detAux_three, detAux_two,
      cofacSum_succ, cofacSum_zero, subEntry]
    ring
  have h10 : M.entry 0 1 * M.cofactor 0 0 + M.entry 1 1 * M.cofactor 1 0 + M.entry 2 1 * M.cofactor 2 0 + M.entry 3 1 * M.cofactor 3 0 = 0 := by
    simp [Matrix.cofactor, Matrix.minor, Matrix.submatrix,
      Matrix.determinate, hw, detAux_four, detAux_three, detAux_two,
      cofacSum_succ, cofacSum_zero, subEntry]
    ring
  have h20 : M.entry 0 2 * M.cofactor 0 0 + M.entry 1 2 * M.cofactor 1 0 + M.entry 2 2 * M.cofactor 2 0 + M.entry 3 2 * M.cofactor 3 0 = 0 := by
    simp [Matrix.cofactor, Matrix.minor, Matrix.submatrix,
      Matrix.determinate, hw, detAux_four, detAux_three, detAux_two,
      cofacSum_succ, cofacSum_zero, subEntry]
    ring
  have h30 : M.entry 0 3 * M.cofactor 0 0 + M.entry 1 3 * M.cofactor 1 0 + M.entry 2 3 * M.cofactor 2 0 + M.entry 3 3 * M.cofactor 3 0 = 0 := by
    simp [Matrix.cofactor, Matrix.minor, Matrix.submatrix,
      Matrix.determinate, hw, detAux_four, detAux_three, detAux_two,
      cofacSum_succ, cofacSum_zero, subEntry]
    ring
  have h01 : M.entry 0 0 * M.cofactor 0 1 + M.entry 1 0 * M.cofactor 1 1 + M.entry 2 0 * M.cofactor 2 1 + M.entry 3 0 * M.cofactor 3 1 = 0 := by
    simp [Matrix.cofactor, Matrix.minor, Matrix.submatrix,
      Matrix.determinate, hw, detAux_four, detAux_three, detAux_two,
      cofacSum_succ, cofacSum_zero, subEntry]
    ring
  have h11 : M.entry 0 1 * M.cofactor 0 1 + M.entry 1 1 * M.cofactor 1 1 + M.entry 2 1 * M.cofactor 2 1 + M.entry 3 1 * M.cofactor 3 1 = M.determinate := by
    simp [Matrix.cofactor, Matrix.minor, Matrix.submatrix,
      Matrix.determinate, hw, detAux_four, detAux_three, detAux_two,
      cofacSum_succ, cofacSum_zero, subEntry]
    ring
  have h21 : M.entry 0 2 * M.cofactor 0 1 + M.entry 1 2 * M.cofactor 1 1 + M.entry 2 2 * M.cofactor 2 1 + M.entry 3 2 * M.cofactor 3 1 = 0 := by
    simp [Matrix.cofactor, Matrix.minor, Matrix.submatrix,
      Matrix.determinate, hw, detAux_four, detAux_three, detAux_two,
      cofacSum_succ, cofacSum_zero, subEntry]
    ring
  have h31 : M.entry 0 3 * M.cofactor 0 1 + M.entry 1 3 * M.cofactor 1 1 + M.entry 2 3 * M.cofactor 2 1 + M.entry 3 3 * M.cofactor 3 1 = 0 := by
    simp [Matrix.cofactor, Matrix.minor, Matrix.submatrix,
      Matrix.determinate, hw, detAux_four, detAux_three, detAux_two,
      cofacSum_succ, cofacSum_zero, subEntry]
    ring
  have h02 : M.entry 0 0 * M.cofactor 0 2 + M.entry 1 0 * M.cofactor 1 2 + M.entry 2 0 * M.cofactor 2 2 + M.entry 3 0 * M.cofactor 3 2 = 0 := by
    simp [Matrix.cofactor, Matrix.minor, Matrix.submatrix,
      Matrix.determinate, hw, detAux_four, detAux_three, detAux_two,
      cofacSum_succ, cofacSum_zero, subEntry]
    ring
  have h12 : M.entry 0 1 * M.cofactor 0 2 + M.entry 1 1 * M.cofactor 1 2 + M.entry 2 1 * M.cofactor 2 2 + M.entry 3 1 * M.cofactor 3 2 = 0 := by
    simp [Matrix.cofactor, Matrix.minor, Matrix.submatrix,
      Matrix.determinate, hw, detAux_four, detAux_three, detAux_two,
      cofacSum_succ, cofacSum_zero, subEntry]
    ring
  have h22 : M.entry 0 2 * M.cofactor 0 2 + M.entry 1 2 * M.cofactor 1 2 + M.entry 2 2 * M.cofactor 2 2 + M.entry 3 2 * M.cofactor 3 2 = M.determinate := by
    simp [Matrix.cofactor, Matrix.minor, Matrix.submatrix,
      Matrix.determinate, hw, detAux_four, detAux_three, detAux_two,
      cofacSum_succ, cofacSum_zero, subEntry]
    ring
  have h32 : M.entry 0 3 * M.cofactor 0 2 + M.entry 1 3 * M.cofactor 1 2 + M.entry 2 3 * M.cofactor 2 2 + M.entry 3 3 * M.cofactor 3 2 = 0 := by
    simp [Matrix.cofactor, Matrix.minor, Matrix.submatrix,
      Matrix.determinate, hw, detAux_four, detAux_three, detAux_two,
      cofacSum_succ, cofacSum_zero, subEntry]
    ring
  have h03 : M.entry 0 0 * M.cofactor 0 3 + M.entry 1 0 * M.cofactor 1 3 + M.entry 2 0 * M.cofactor 2 3 + M.entry 3 0 * M.cofactor 3 3 = 0 := by
    simp [Matrix.cofactor, Matrix.minor, Matrix.submatrix,
      Matrix.determinate, hw, detAux_four, detAux_three, detAux_two,
      cofacSum_succ, cofacSum_zero, subEntry]
    ring
  have h13 : M.entry 0 1 * M.cofactor 0 3 + M.entry 1 1 * M.cofactor 1 3 + M.entry 2 1 * M.cofactor 2 3 + M.entry 3 1 * M.cofactor 3 3 = 0 := by
    simp [Matrix.cofactor, Matrix.minor, Matrix.submatrix,
      Matrix.determinate, hw, detAux_four, detAux_three, detAux_two,
      cofacSum_succ, cofacSum_zero, subEntry]
    ring
  have h23 : M.entry 0 2 * M.cofactor 0 3 + M.entry 1 2 * M.cofactor 1 3 + M.entry 2 2 * M.cofactor 2 3 + M.entry 3 2 * M.cofactor 3 3 = 0 := by
    simp [Matrix.cofactor, Matrix.minor, Matrix.submatrix,
      Matrix.determinate, hw, detAux_four, detAux_three, detAux_two,
      cofacSum_succ, cofacSum_zero, subEntry]
    ring
  have h33 : M.entry 0 3 * M.cofactor 0 3 + M.entry 1 3 * M.cofactor 1 3 + M.entry 2 3 * M.cofactor 2 3 + M.entry 3 3 * M.cofactor 3 3 = M.determinate := by
    simp [Matrix.cofactor, Matrix.minor, Matrix.submatrix,
      Matrix.determinate, hw, detAux_four, detAux_three, detAux_two,
      cofacSum_succ, cofacSum_zero, subEntry]
    ring
  simp only [Matrix.mulTuple, Matrix.rowTuple, Tuple.dot, Tuple.mk.injEq]
  refine ⟨?_, ?_, ?_, ?_⟩
  · field_simp
    linear_combination tx * h00 + ty * h10 + tz * h20 + tw * h30
  · field_simp
    linear_combination tx * h01 + ty * h11 + tz * h21 + tw * h31
  · field_simp
    linear_combination tx * h02 + ty * h12 + tz * h22 + tw * h32
  · field_simp
    linear_combination tx * h03 + ty * h13 + tz * h23 + tw * h33

/-- C8: for every 4×4 matrix M whose determinant is non-zero and every
tuple t, multiplying M.inverse() by the tuple (M * t) yields a tuple equal
to t under the ε-tolerant component-wise tuple equality. -/
theorem inverse_roundtrip_feq (M : Matrix) (t : Tuple) (inv : Matrix)
    (hw : M.width = 4) (_hh : M.height = 4) (_hdet : M.determinate ≠ 0)
    (hinv : M.inverse = some inv) :
    (inv.mulTuple (M.mulTuple t)).feq t :=
  Tuple.feq_of_eq (inverse_mulTuple_exact M t inv hw hinv)

/-- Witness for C8 at the scaling matrix (2,3,4) and the point (1,2,3). -/
theorem inverse_roundtrip_feq_witness :
    (Matrix.scaling 2 3 4).width = 4 ∧ (Matrix.scaling 2 3 4).height = 4 ∧
    (Matrix.scaling 2 3 4).determinate ≠ 0 ∧
    (Matrix.scaling 2 3 4).inverse =
      some ⟨4, 4, fun i j =>
        (Matrix.scaling 2 3 4).cofactor j i / (Matrix.scaling 2 3 4).determinate⟩ ∧
    (Matrix.mulTuple
      ⟨4, 4, fun i j =>
        (Matrix.scaling 2 3 4).cofactor j i / (Matrix.scaling 2 3 4).determinate⟩
      ((Matrix.scaling 2 3 4).mulTuple ⟨1, 2, 3, 1⟩)).feq ⟨1, 2, 3, 1⟩ := by
  have hdet : (Matrix.scaling 2 3 4).determinate ≠ 0 := by
    norm_num [Matrix.determinate, Matrix.scaling, detAux_four, detAux_three, detAux_two,
      cofacSum_succ, cofacSum_zero, subEntry]
  have hinv : (Matrix.scaling 2 3 4).inverse =
      some ⟨4, 4, fun i j =>
        (Matrix.scaling 2 3 4).cofactor j i / (Matrix.scaling 2 3 4).determinate⟩ := by
    rw [Matrix.inverse, if_neg hdet]
  exact ⟨rfl, rfl, hdet, hinv, inverse_roundtrip_feq _ _ _ rfl rfl hdet hinv⟩

/-- C10: translation matrices act as the identity on tuples with w = 0
(vectors): Matrix::translation(x, y, z) * v = v, exactly. -/
theorem translation_fixes_vectors (x y z : ℚ) (v : Tuple) (hv : v.w = 0) :
    (Matrix.translation x y z).mulTuple v = v := by
  obtain ⟨a, b, c, w⟩ := v
  simp only at hv
  subst hv
  simp [Matrix.translation, Matrix.mulTuple, Matrix.rowTuple, Tuple.dot, Tuple.mk.injEq]

/-- Witness for C10 at translation (5,−3,2) applied to the vector (1,2,3). -/
theorem translation_fixes_vectors_witness :
    (Tuple.mk 1 2 3 0).w = 0 ∧
    (Matrix.translation 5 (-3) 2).mulTuple ⟨1, 2, 3, 0⟩ = ⟨1, 2, 3, 0⟩ :=
  ⟨rfl, translation_fixes_vectors 5 (-3) 2 ⟨1, 2, 3, 0⟩ rfl⟩

/-- The pixel store index map is injective on in-range x coordinates. -/
theorem pixel_index_inj {w x1 y1 x2 y2 : Nat} (h1 : x1 < w) (h2 : x2 < w)
    (he : w * y1 + x1 = w * y2 + x2) : x1 = x2 ∧ y1 = y2 := by
  have hw : 0 < w := Nat.lt_of_le_of_lt (Nat.zero_le x1) h1
  have hx1 : (w * y1 + x1) % w = x1 := by
    rw [Nat.mul_add_mod]
    exact Nat.mod_eq_of_lt h1
  have hx2 : (w * y2 + x2) % w = x2 := by
    rw [Nat.mul_add_mod]
    exact Nat.mod_eq_of_lt h2
  have hy1 : (w * y1 + x1) / w = y1 := by
    rw [Nat.mul_add_div hw, Nat.div_eq_of_lt h1, Nat.add_zero]
  have hy2 : (w * y2 + x2) / w = y2 := by
    rw [Nat.mul_add_div hw, Nat.div_eq_of_lt h2, Nat.add_zero]
  constructor
  · rw [← hx1, ← hx2, he]
  · rw [← hy1, ← hy2, he]

/-- Writing a pixel keeps the canvas dimensions and store length. -/
theorem Canvas.write_dims (c : Canvas) (x y : Nat) (col : Colour) :
    (c.write x y col).width = c.width ∧ (c.write x y col).height = c.height ∧
      (c.write x y col).data.length = c.data.length :=
  ⟨rfl, rfl, List.length_set c.data _ _⟩

/-- Reading back the pixel just written, when it is inside the store. -/
theorem Canvas.atPix_write_self (c : Canvas) (x y : Nat) (col : Colour)
    (hidx : c.width * y + x < c.data.length) :
    (c.write x y col).atPix x y = col := by
  unfold Canvas.write Canvas.atPix
  simp [List.getElem?_set_self hidx]

/-- Writing one pixel leaves every other store index unchanged. -/
theorem Canvas.atPix_write_ne (c : Canvas) (x y a b : Nat) (col : Colour)
    (hne : c.width * b + a ≠ c.width * y + x) :
    (c.write x y col).atPix a b = c.atPix a b := by
  unfold Canvas.write Canvas.atPix
  simp [List.getElem?_set_ne (fun he => hne he.symm)]

/-- writeAll preserves the canvas dimensions and store length. -/
theorem writeAll_dims (pc : Nat → Nat → Colour) (l : List (Nat × Nat)) (c : Canvas) :
    (writeAll pc l c).width = c.width ∧ (writeAll pc l c).height = c.height ∧
      (writeAll pc l c).data.length = c.data.length := by
  induction l generalizing c with
  | nil => exact ⟨rfl, rfl, rfl⟩
  | cons p rest ih =>
    have hs := ih (c.write p.1 p.2 (pc p.1 p.2))
    have hw := Canvas.write_dims c p.1 p.2 (pc p.1 p.2)
    refine ⟨?_, ?_, ?_⟩
    · rw [writeAll, List.foldl_cons, ← writeAll, hs.1, hw.1]
    · rw [writeAll, List.foldl_cons, ← writeAll, hs.2.1, hw.2.1]
    · rw [writeAll, List.foldl_cons, ← writeAll, hs.2.2, hw.2.2]

/-- After writing every pixel of a list that contains (x,y) and stays in
range, the pixel (x,y) holds its per-pixel colour. -/
theorem writeAll_atPix (pc : Nat → Nat → Colour) (l : List (Nat × Nat)) (c : Canvas)
    (x y : Nat) (hx : x < c.width) (hy : y < c.height)
    (hlen : c.data.length = c.width * c.height)
    (hmem : (x, y) ∈ l) (hall : ∀ p ∈ l, p.1 < c.width ∧ p.2 < c.height) :
    (writeAll pc l c).atPix x y = pc x y := by
  induction l using List.reverseRecOn generalizing c with
  | nil => cases hmem
  | append_singleton rest p ih =>
    have hstep : writeAll pc (rest ++ [p]) c =
        (writeAll pc rest c).write p.1 p.2 (pc p.1 p.2) := by
      unfold writeAll
      rw [List.foldl_append, List.foldl_cons, List.foldl_nil]
    have hdims := writeAll_dims pc rest c
    by_cases hp : p = (x, y)
    · subst hp
      rw [hstep]
      have hidx : (writeAll pc rest c).width * y + x < (writeAll pc rest c).data.length := by
        rw [hdims.1, hdims.2.2, hlen]
        calc c.width * y + x < c.width * y + c.width := by omega
        _ = c.width * (y + 1) := by ring
        _ ≤ c.width * c.height := Nat.mul_le_mul_left _ hy
      exact Canvas.atPix_write_self _ _ _ _ hidx
    · have hmem2 : (x, y) ∈ rest := by
        rcases List.mem_append.1 hmem with h | h
        · exact h
        · cases List.mem_singleton.1 h
          exact absurd rfl hp
      have hpin := hall p (List.mem_append.2 (Or.inr (List.mem_singleton.2 rfl)))
      rw [hstep]
      have hne : (writeAll pc rest c).width * y + x ≠
          (writeAll pc rest c).width * p.2 + p.1 := by
        rw [hdims.1]
        intro he
        have := pixel_index_inj hx (hdims.1 ▸ hpin.1) he
        exact hp (Prod.ext this.1.symm this.2.symm)
      have := Canvas.atPix_write_ne (writeAll pc rest c) p.1 p.2 x y (pc p.1 p.2) hne
      rw [this]
      exact ih c hx hy hlen hmem2 (fun q hq => hall q (List.mem_append.2 (Or.inl hq)))

/-- Folding over a flat-mapped list is the nested fold. -/
theorem foldl_flatMap {α β γ : Type} (g : α → List β) (f : γ → β → γ)
    (l : List α) (c : γ) :
    (l.flatMap g).foldl f c = l.foldl (fun c a => (g a).foldl f c) c := by
  induction l generalizing c with
  | nil => rfl
  | cons a rest ih => rw [List.flatMap_cons, List.foldl_append, List.foldl_cons, ih]

/-- The sequential render is exactly the write of every pixel of the
x-major work list, in order, into a fresh canvas. -/
theorem render_eq_writeAll (pc : Nat → Nat → Colour) (h v : Nat) :
    render pc h v = writeAll pc (workList h v) (Canvas.new h v) := by
  unfold render workList writeAll
  rw [foldl_flatMap]
  simp only [List.foldl_map]

/-- Membership in the work list is exactly being an in-range pixel. -/
theorem workList_mem (h v x y : Nat) : (x, y) ∈ workList h v ↔ x < h ∧ y < v := by
  simp [workList]

/-- C4 (amended: hsize·vsize must be at least 16, otherwise
render_parallel panics computing its chunk size): for every per-pixel
colour function, the parallel render returns a canvas, and at every
in-range pixel both it and the sequential render hold that pixel's
colour, for every arrival order of the worker messages (any permutation
of the work list). -/
theorem render_parallel_pixel_identical (pc : Nat → Nat → Colour) (h v : Nat)
    (arrival : List (Nat × Nat)) (hsz : 16 ≤ h * v)
    (hperm : arrival.Perm (workList h v)) :
    ∃ c, renderParallel pc h v arrival = some c ∧
      ∀ x, x < h → ∀ y, y < v →
        c.atPix x y = pc x y ∧ (render pc h v).atPix x y = pc x y := by
  have hchunk : ¬h * v / 16 = 0 := by
    have h1 : 1 ≤ h * v / 16 := (Nat.le_div_iff_mul_le (by norm_num)).2 (by omega)
    omega
  refine ⟨writeAll pc arrival (Canvas.new h v), by rw [renderParallel, if_neg hchunk], ?_⟩
  intro x hx y hy
  have hlen : (Canvas.new h v).data.length = (Canvas.new h v).width * (Canvas.new h v).height :=
    List.length_replicate _ _
  constructor
  · refine writeAll_atPix pc arrival (Canvas.new h v) x y hx hy hlen ?_ ?_
    · exact hperm.mem_iff.2 ((workList_mem h v x y).2 ⟨hx, hy⟩)
    · intro p hp
      have := (workList_mem h v p.1 p.2).1 (hperm.subset hp)
      exact this
  · rw [render_eq_writeAll]
    refine writeAll_atPix pc (workList h v) (Canvas.new h v) x y hx hy hlen ?_ ?_
    · exact (workList_mem h v x y).2 ⟨hx, hy⟩
    · intro p hp
      exact (workList_mem h v p.1 p.2).1 hp

/-- Counterexample to C4 as stated: on a 1×1 camera the sequential render
produces its pixel but the parallel render panics (chunk size
(hsize·vsize)/16 = 0), so no canvas exists for it at all. -/
theorem render_parallel_small_canvas_panics :
    renderParallel (fun _ _ => Colour.BLACK) 1 1 (workList 1 1) = none ∧
    (render (fun _ _ => Colour.BLACK) 1 1).atPix 0 0 = Colour.BLACK := by
  constructor
  · rfl
  · rfl

/-- Witness for C4 on a 4×4 canvas (16 pixels, the smallest size the
parallel render accepts) with a pixel-coordinate colour function and a
reversed arrival order. -/
theorem render_parallel_pixel_identical_witness :
    16 ≤ 4 * 4 ∧ ((workList 4 4).reverse).Perm (workList 4 4) ∧
    ∃ c, renderParallel (fun x y => ⟨x, y, 0⟩) 4 4 ((workList 4 4).reverse) = some c ∧
      ∀ x, x < 4 → ∀ y, y < 4 →
        c.atPix x y = ⟨x, y, 0⟩ ∧ (render (fun x y => ⟨x, y, 0⟩) 4 4).atPix x y = ⟨x, y, 0⟩ :=
  ⟨by norm_num, List.reverse_perm _,
    render_parallel_pixel_identical _ 4 4 _ (by norm_num) (List.reverse_perm _)⟩

/-- The first-minimum fold returns an element of the list that is ≤ every
element of the list (head included). -/
theorem minByT_fold_spec (rest : List Intersection) (x : Intersection) :
    (rest.foldl (fun acc y => if y.t < acc.t then y else acc) x) ∈ x :: rest ∧
      ∀ j ∈ x :: rest,
        (rest.foldl (fun acc y => if y.t < acc.t then y else acc) x).t ≤ j.t := by
  induction rest generalizing x with
  | nil =>
    refine ⟨List.mem_singleton.2 rfl, ?_⟩
    intro j hj
    rw [List.mem_singleton.1 hj]
    exact le_refl _
  | cons y rs ih =>
    have step : (y :: rs).foldl (fun acc y => if y.t < acc.t then y else acc) x =
        rs.foldl (fun acc y => if y.t < acc.t then y else acc) (if y.t < x.t then y else x) := by
      rw [List.foldl_cons]
    obtain ⟨ihmem, ihmin⟩ := ih (if y.t < x.t then y else x)
    rw [step]
    constructor
    · rcases List.mem_cons.1 ihmem with hh | ht
      · rw [hh]
        by_cases hc : y.t < x.t
        · rw [if_pos hc]
          exact List.mem_cons_of_mem _ (List.mem_cons_self _ _)
        · rw [if_neg hc]
          exact List.mem_cons_self _ _
      · exact List.mem_cons_of_mem _ (List.mem_cons_of_mem _ ht)
    · intro j hj
      have hhead : (rs.foldl (fun acc y => if y.t < acc.t then y else acc)
          (if y.t < x.t then y else x)).t ≤ (if y.t < x.t then y else x).t :=
        ihmin _ (List.mem_cons_self _ _)
      rcases List.mem_cons.1 hj with hj1 | hj2
      · rw [hj1]
        by_cases hc : y.t < x.t
        · rw [if_pos hc] at hhead ⊢
          exact le_trans hhead (le_of_lt hc)
        · rw [if_neg hc] at hhead ⊢
          exact hhead
      rcases List.mem_cons.1 hj2 with hj3 | hj4
      · rw [hj3]
        by_cases hc : y.t < x.t
        · rw [if_pos hc] at hhead ⊢
          exact hhead
        · rw [if_neg hc] at hhead ⊢
          exact le_trans hhead (le_of_not_lt hc)
      · exact ihmin _ (List.mem_cons_of_mem _ hj4)

/-- C2: hit returns none exactly when no intersection has t ≥ 0, and
otherwise returns an element of the list with non-negative t that is
minimal among the non-negative ones. -/
theorem hit_spec (xs : List Intersection) :
    (hit xs = none ↔ ∀ i ∈ xs, i.t < 0) ∧
      ∀ i, hit xs = some i →
        i ∈ xs ∧ 0 ≤ i.t ∧ ∀ j ∈ xs, 0 ≤ j.t → i.t ≤ j.t := by
  constructor
  · constructor
    · intro hnone i hi
      by_contra hneg
      have hmem : i ∈ xs.filter (fun i => 0 ≤ i.t) :=
        List.mem_filter.2 ⟨hi, decide_eq_true (le_of_not_lt hneg)⟩
      unfold hit at hnone
      cases hfl : xs.filter (fun i => 0 ≤ i.t) with
      | nil => rw [hfl] at hmem; cases hmem
      | cons a l => rw [hfl] at hnone; cases hnone
    · intro hall
      unfold hit
      cases hfl : xs.filter (fun i => 0 ≤ i.t) with
      | nil => rfl
      | cons a l =>
        have hmem : a ∈ xs.filter (fun i => 0 ≤ i.t) := by
          rw [hfl]
          exact List.mem_cons_self _ _
        have := List.mem_filter.1 hmem
        have h0 : (0 : ℚ) ≤ a.t := of_decide_eq_true this.2
        have := hall a this.1
        linarith
  · intro i hsome
    unfold hit at hsome
    cases hfl : xs.filter (fun i => 0 ≤ i.t) with
    | nil => rw [hfl] at hsome; cases hsome
    | cons a l =>
      rw [hfl] at hsome
      unfold minByT at hsome
      have hi := Option.some.inj hsome
      obtain ⟨hmem, hmin⟩ := minByT_fold_spec l a
      rw [hi] at hmem hmin
      have hmemf : i ∈ xs.filter (fun i => 0 ≤ i.t) := by
        rw [hfl]
        exact hmem
      have hif := List.mem_filter.1 hmemf
      refine ⟨hif.1, of_decide_eq_true hif.2, ?_⟩
      intro j hj hj0
      have hjf : j ∈ xs.filter (fun i => 0 ≤ i.t) :=
        List.mem_filter.2 ⟨hj, decide_eq_true hj0⟩
      rw [hfl] at hjf
      exact hmin j hjf

/-- Witness for C2 at the spec's example t = [5, 7, −1, 2]: the hit is
the intersection at t = 2, and it is minimal among the non-negatives. -/
theorem hit_spec_witness :
    hit [⟨5, Sphere.new 0⟩, ⟨7, Sphere.new 0⟩, ⟨-1, Sphere.new 0⟩, ⟨2, Sphere.new 0⟩] =
      some ⟨2, Sphere.new 0⟩ ∧
    ((⟨2, Sphere.new 0⟩ : Intersection) ∈
        [⟨5, Sphere.new 0⟩, ⟨7, Sphere.new 0⟩, ⟨-1, Sphere.new 0⟩, ⟨2, Sphere.new 0⟩] ∧
      (0 : ℚ) ≤ (2 : ℚ) ∧
      ∀ j ∈ [(⟨5, Sphere.new 0⟩ : Intersection), ⟨7, Sphere.new 0⟩, ⟨-1, Sphere.new 0⟩,
          ⟨2, Sphere.new 0⟩], 0 ≤ j.t → (2 : ℚ) ≤ j.t) := by
  have heval : hit [⟨5, Sphere.new 0⟩, ⟨7, Sphere.new 0⟩, ⟨-1, Sphere.new 0⟩,
      ⟨2, Sphere.new 0⟩] = some ⟨2, Sphere.new 0⟩ := by
    norm_num [hit, minByT, List.filter]
  exact ⟨heval, (hit_spec _).2 _ heval⟩

/-- A tuple dotted with itself is non-negative. -/
theorem dot_self_nonneg (t : Tuple) : 0 ≤ t.dot t := by
  unfold Tuple.dot
  nlinarith [sq_nonneg t.x, sq_nonneg t.y, sq_nonneg t.z, sq_nonneg t.w]

/-- C3: against the unit sphere in local space (the ray transformed by
the inverse of the sphere's transform) with a = D·D, b = 2·D·(O−center),
c = (O−center)·(O−center) − 1: a negative discriminant yields no
intersections; otherwise exactly the two intersections at
(−b ∓ √disc)/(2a), smaller root first (when the square root is
non-negative), and both t-values are roots of the quadratic
a·t² + b·t + c (when the square root squares back to the discriminant),
tangent and both-negative cases included. -/
theorem sphere_intersect_quadratic (fops : FloatOps) (s : Sphere) (ray : Ray)
    (inv : Matrix) (a b c disc : ℚ)
    (hinv : s.transform.inverse = some inv)
    (ha : a = (ray.transformM inv).direction.dot (ray.transformM inv).direction)
    (hb : b = 2 * (ray.transformM inv).direction.dot
      ((ray.transformM inv).origin - Tuple.point 0 0 0))
    (hc : c = ((ray.transformM inv).origin - Tuple.point 0 0 0).dot
      ((ray.transformM inv).origin - Tuple.point 0 0 0) - 1)
    (hd : disc = b ^ 2 - 4 * a * c) :
    (disc < 0 → Sphere.intersect fops s ray = none) ∧
    (0 ≤ disc →
      Sphere.intersect fops s ray =
        some [⟨(-b - fops.sqrt disc) / (2 * a), s⟩, ⟨(-b + fops.sqrt disc) / (2 * a), s⟩] ∧
      (0 ≤ fops.sqrt disc → a ≠ 0 →
        (-b - fops.sqrt disc) / (2 * a) ≤ (-b + fops.sqrt disc) / (2 * a)) ∧
      (fops.sqrt disc * fops.sqrt disc = disc → a ≠ 0 →
        a * ((-b - fops.sqrt disc) / (2 * a)) ^ 2 + b * ((-b - fops.sqrt disc) / (2 * a)) + c = 0 ∧
        a * ((-b + fops.sqrt disc) / (2 * a)) ^ 2 + b * ((-b + fops.sqrt disc) / (2 * a)) + c = 0)) := by
  have hunf : Sphere.intersect fops s ray =
      (if disc < 0 then none
       else some [⟨(-b - fops.sqrt disc) / (2 * a), s⟩, ⟨(-b + fops.sqrt disc) / (2 * a), s⟩]) := by
    unfold Sphere.intersect
    rw [hinv]
    simp only [← ha, ← hb, ← hc, ← hd]
  constructor
  · intro hneg
    rw [hunf, if_pos hneg]
  · intro hpos
    have hnlt : ¬disc < 0 := not_lt.2 hpos
    refine ⟨by rw [hunf, if_neg hnlt], ?_, ?_⟩
    · intro hs ha0
      have hapos : 0 < a := by
        rcases lt_or_eq_of_le (ha ▸ dot_self_nonneg (ray.transformM inv).direction) with h | h
        · exact h
        · exact absurd h.symm ha0
      have h2a : 0 < 2 * a := by linarith
      rw [div_le_div_iff_of_pos_right h2a]
      linarith
    · intro hsq ha0
      generalize hgen : fops.sqrt disc = s0 at hsq ⊢
      rw [hd] at hsq
      constructor
      · field_simp
        linear_combination 2 * a ^ 2 * hsq
      · field_simp
        linear_combination 2 * a ^ 2 * hsq

/-- Unfolding equation for tuple addition. -/
theorem tuple_add_def (a b : Tuple) :
    a + b = ⟨a.x + b.x, a.y + b.y, a.z + b.z, a.w + b.w⟩ := rfl

/-- Unfolding equation for tuple subtraction. -/
theorem tuple_sub_def (a b : Tuple) :
    a - b = ⟨a.x - b.x, a.y - b.y, a.z - b.z, a.w - b.w⟩ := rfl

/-- Unfolding equation for tuple negation. -/
theorem tuple_neg_def (a : Tuple) : -a = ⟨-a.x, -a.y, -a.z, -a.w⟩ := rfl

/-- Unfolding equation for tuple scaling. -/
theorem tuple_smul_def (a : Tuple) (s : ℚ) :
    a * s = ⟨a.x * s, a.y * s, a.z * s, a.w * s⟩ := rfl

/-- Unfolding equation for colour addition. -/
theorem colour_add_def (a b : Colour) :
    a + b = ⟨a.red + b.red, a.green + b.green, a.blue + b.blue⟩ := rfl

/-- Unfolding equation for the componentwise colour product. -/
theorem colour_mul_def (a b : Colour) :
    a * b = ⟨a.red * b.red, a.green * b.green, a.blue * b.blue⟩ := rfl

/-- Unfolding equation for colour scaling. -/
theorem colour_smul_def (a : Colour) (s : ℚ) :
    a * s = ⟨a.red * s, a.green * s, a.blue * s⟩ := rfl

/-- Unfolding equation for colour division by a scalar. -/
theorem colour_sdiv_def (a : Colour) (s : ℚ) :
    a / s = ⟨a.red / s, a.green / s, a.blue / s⟩ := rfl

/-- Witness for C3: the default unit sphere hit by the ray from (0,0,−5)
along (0,0,1) yields t = [4, 6]. -/
theorem sphere_intersect_quadratic_witness :
    ((Sphere.new 0).transform.inverse =
      some ⟨4, 4, fun i j => identityM.cofactor j i / identityM.determinate⟩) ∧
    Sphere.intersect probeFops (Sphere.new 0) ⟨⟨0, 0, -5, 1⟩, ⟨0, 0, 1, 0⟩⟩ =
      some [⟨4, Sphere.new 0⟩, ⟨6, Sphere.new 0⟩] := by
  have hdet : identityM.determinate ≠ 0 := by
    norm_num [Matrix.determinate, identityM, detAux_four, detAux_three, detAux_two,
      cofacSum_succ, cofacSum_zero, subEntry]
  have hinv : (Sphere.new 0).transform.inverse =
      some ⟨4, 4, fun i j => identityM.cofactor j i / identityM.determinate⟩ := by
    show identityM.inverse = _
    rw [Matrix.inverse, if_neg hdet]
  have happ := sphere_intersect_quadratic probeFops (Sphere.new 0)
    ⟨⟨0, 0, -5, 1⟩, ⟨0, 0, 1, 0⟩⟩ _ _ _ _ _ hinv rfl rfl rfl rfl
  have hpos := happ.2 (by
    norm_num [Ray.transformM, Matrix.mulTuple, Matrix.rowTuple, Matrix.cofactor,
      Matrix.minor, Matrix.submatrix, Matrix.determinate, identityM, detAux_four,
      detAux_three, detAux_two, cofacSum_succ, cofacSum_zero, subEntry, Tuple.dot,
      Tuple.point, tuple_sub_def])
  refine ⟨hinv, ?_⟩
  rw [hpos.1]
  norm_num [Ray.transformM, Matrix.mulTuple, Matrix.rowTuple, Matrix.cofactor,
    Matrix.minor, Matrix.submatrix, Matrix.determinate, identityM, detAux_four,
    detAux_three, detAux_two, cofacSum_succ, cofacSum_zero, subEntry, Tuple.dot,
    Tuple.point, tuple_sub_def, probeFops]

/-- C6: with the in_shadow flag set, lighting returns the ambient term
alone — the effective colour (material colour × light intensity) scaled
by the material's ambient coefficient — with no diffuse or specular
contribution. -/
theorem lighting_in_shadow (fops : FloatOps) (m : Material) (l : PointLight)
    (point eyeVec normalVec : Tuple) :
    lighting fops m l point eyeVec normalVec true = (m.colour * l.intensity) * m.ambient := rfl

/-- C7: is_shadowed_by holds exactly when the hit of the world
intersections of the ray from the point toward the light exists and its t
is strictly below the distance to the light; a hit at or beyond the
light, or no hit, is not a shadow. -/
theorem is_shadowed_by_iff (fops : FloatOps) (w : World) (light : PointLight)
    (point : Tuple) :
    w.isShadowedBy fops light point = true ↔
      ∃ i, hit (w.intersectWorld fops
          ⟨point, (light.position - point).normalize fops⟩) = some i ∧
        i.t < (light.position - point).magnitude fops := by
  unfold World.isShadowedBy
  generalize light.position - point = v
  cases hh : hit (w.intersectWorld fops ⟨point, v.normalize fops⟩) with
  | none => simp [hh]
  | some h => simp [hh]

/-- C5: prepare_computations sets inside exactly when the shape normal at
the hit point dotted with the eye vector (the negated ray direction) is
negative; when inside, the returned normal is the negation of the shape's
normal; and the over point is the hit point offset by ε along the
already-flipped normal. -/
theorem prepare_computations_inside_flip (fops : FloatOps) (i : Intersection)
    (ray : Ray) (nv : Tuple)
    (hn : Sphere.normalAt fops i.object (ray.position i.t) = some nv) :
    ∃ comps, i.prepareComputations fops ray = some comps ∧
      (comps.inside = true ↔ nv.dot (-ray.direction) < 0) ∧
      (comps.inside = true → comps.normal_vector = -nv) ∧
      (comps.inside = false → comps.normal_vector = nv) ∧
      comps.point = ray.position i.t ∧
      comps.eye_vector = -ray.direction ∧
      comps.over_point = comps.point + comps.normal_vector * EPSILON := by
  unfold Intersection.prepareComputations
  rw [hn]
  by_cases hP : nv.dot (-ray.direction) < 0
  · refine ⟨_, rfl, ?_, ?_, ?_, rfl, rfl, rfl⟩ <;> simp [hP]
  · refine ⟨_, rfl, ?_, ?_, ?_, rfl, rfl, rfl⟩ <;> simp [hP]

/-- Witness for C5 at the repository's own inside-hit test: ray from the
origin along +z, default sphere, t = 1; the shape normal is (0,0,1), the
eye looks along −z, so the hit is inside and the normal flips to
(0,0,−1). -/
theorem prepare_computations_inside_flip_witness :
    Sphere.normalAt probeFops (Sphere.new 0)
      (Ray.position ⟨⟨0, 0, 0, 1⟩, ⟨0, 0, 1, 0⟩⟩ 1) = some ⟨0, 0, 1, 0⟩ ∧
    (∃ comps, Intersection.prepareComputations probeFops ⟨1, Sphere.new 0⟩
        ⟨⟨0, 0, 0, 1⟩, ⟨0, 0, 1, 0⟩⟩ = some comps ∧
      (comps.inside = true ↔ Tuple.dot ⟨0, 0, 1, 0⟩ (-(⟨0, 0, 1, 0⟩ : Tuple)) < 0) ∧
      (comps.inside = true → comps.normal_vector = -(⟨0, 0, 1, 0⟩ : Tuple)) ∧
      (comps.inside = false → comps.normal_vector = ⟨0, 0, 1, 0⟩) ∧
      comps.point = Ray.position ⟨⟨0, 0, 0, 1⟩, ⟨0, 0, 1, 0⟩⟩ 1 ∧
      comps.eye_vector = -(⟨0, 0, 1, 0⟩ : Tuple) ∧
      comps.over_point = comps.point + comps.normal_vector * EPSILON) := by
  have hn : Sphere.normalAt probeFops (Sphere.new 0)
      (Ray.position ⟨⟨0, 0, 0, 1⟩, ⟨0, 0, 1, 0⟩⟩ 1) = some ⟨0, 0, 1, 0⟩ := by
    norm_num [Sphere.normalAt, Sphere.new, Ray.position, Matrix.inverse, Matrix.mulTuple,
      Matrix.rowTuple, Matrix.transpose, Matrix.cofactor, Matrix.minor, Matrix.submatrix,
      Matrix.determinate, identityM, detAux_four, detAux_three, detAux_two, cofacSum_succ,
      cofacSum_zero, subEntry, Tuple.dot, Tuple.ZERO, Tuple.normalize, Tuple.magnitude,
      tuple_add_def, tuple_sub_def, tuple_smul_def, probeFops]
  exact ⟨hn, prepare_computations_inside_flip probeFops ⟨1, Sphere.new 0⟩
    ⟨⟨0, 0, 0, 1⟩, ⟨0, 0, 1, 0⟩⟩ ⟨0, 0, 1, 0⟩ hn⟩

/-- C9: with no lights, shade_hit's reduce over the per-light colours
produces nothing and the source unwraps it — a panic, modelled as `none`
— and colour_at on any ray whose hit exists therefore also fails. -/
theorem empty_lights_shade_hit_panics (fops : FloatOps) (w : World)
    (hl : w.light = []) :
    (∀ comps, w.shadeHit fops comps = none) ∧
    (∀ ray i, hit (w.intersectWorld fops ray) = some i →
      w.colourAt fops ray = none) := by
  have hsh : ∀ comps, w.shadeHit fops comps = none := by
    intro comps
    unfold World.shadeHit
    rw [hl]
    rfl
  refine ⟨hsh, ?_⟩
  intro ray i hi
  unfold World.colourAt
  simp only [hi]
  cases hp : i.prepareComputations fops ray with
  | none => simp [hp]
  | some comps => simp [hp, hsh comps]

/-- Witness for C9: a world holding one default sphere and no lights;
the ray from (0,0,−5) along +z hits at t = 4, and colour_at fails
(`none`, the modelled panic), as does shade_hit on any computation. -/
theorem empty_lights_shade_hit_panics_witness :
    (⟨[Sphere.new 0], []⟩ : World).light = [] ∧
    hit (World.intersectWorld probeFops ⟨[Sphere.new 0], []⟩
      ⟨⟨0, 0, -5, 1⟩, ⟨0, 0, 1, 0⟩⟩) = some ⟨4, Sphere.new 0⟩ ∧
    World.shadeHit probeFops ⟨[Sphere.new 0], []⟩
      ⟨Sphere.new 0, 0, Tuple.ZERO, Tuple.ZERO, Tuple.ZERO, Tuple.ZERO, false⟩ = none ∧
    World.colourAt probeFops ⟨[Sphere.new 0], []⟩ ⟨⟨0, 0, -5, 1⟩, ⟨0, 0, 1, 0⟩⟩ = none := by
  have hhit : hit (World.intersectWorld probeFops ⟨[Sphere.new 0], []⟩
      ⟨⟨0, 0, -5, 1⟩, ⟨0, 0, 1, 0⟩⟩) = some ⟨4, Sphere.new 0⟩ := by
    norm_num [World.intersectWorld, Sphere.intersect, Sphere.new, Ray.transformM,
      Matrix.inverse, Matrix.mulTuple, Matrix.rowTuple, Matrix.cofactor, Matrix.minor,
      Matrix.submatrix, Matrix.determinate, identityM, detAux_four, detAux_three,
      detAux_two, cofacSum_succ, cofacSum_zero, subEntry, Tuple.dot, Tuple.point,
      tuple_sub_def, probeFops, List.insertionSort, List.orderedInsert, hit, minByT,
      List.filter]
  exact ⟨rfl, hhit,
    (empty_lights_shade_hit_panics probeFops ⟨[Sphere.new 0], []⟩ rfl).1 _,
    (empty_lights_shade_hit_panics probeFops ⟨[Sphere.new 0], []⟩ rfl).2 _ _ hhit⟩

/-- C1 (the code contradicts the documented averaging): a world with no
objects and two identical lights, shaded at a computation whose point
faces both lights.  Each per-light Phong colour is (1,1,1); the claimed
arithmetic mean is (1,1,1); but shade_hit's
`reduce(|acc, c| acc + c / count)` never divides the FIRST light's
colour, returning (3/2, 3/2, 3/2). -/
theorem shade_hit_not_light_average :
    World.shadeHit probeFops
      ⟨[], [⟨⟨1, 1, 1⟩, ⟨0, 0, -2, 1⟩⟩, ⟨⟨1, 1, 1⟩, ⟨0, 0, -2, 1⟩⟩]⟩
      ⟨Sphere.new 0, 4, ⟨0, 0, -1, 1⟩, ⟨0, 0, -1, 1⟩, ⟨0, 0, 1, 0⟩, ⟨0, 0, -1, 0⟩, false⟩ =
      some ⟨3 / 2, 3 / 2, 3 / 2⟩ ∧
    (lighting probeFops (Sphere.new 0).material ⟨⟨1, 1, 1⟩, ⟨0, 0, -2, 1⟩⟩
        ⟨0, 0, -1, 1⟩ ⟨0, 0, 1, 0⟩ ⟨0, 0, -1, 0⟩
        (World.isShadowedBy probeFops
          ⟨[], [⟨⟨1, 1, 1⟩, ⟨0, 0, -2, 1⟩⟩, ⟨⟨1, 1, 1⟩, ⟨0, 0, -2, 1⟩⟩]⟩
          ⟨⟨1, 1, 1⟩, ⟨0, 0, -2, 1⟩⟩ ⟨0, 0, -1, 1⟩) +
      lighting probeFops (Sphere.new 0).material ⟨⟨1, 1, 1⟩, ⟨0, 0, -2, 1⟩⟩
        ⟨0, 0, -1, 1⟩ ⟨0, 0, 1, 0⟩ ⟨0, 0, -1, 0⟩
        (World.isShadowedBy probeFops
          ⟨[], [⟨⟨1, 1, 1⟩, ⟨0, 0, -2, 1⟩⟩, ⟨⟨1, 1, 1⟩, ⟨0, 0, -2, 1⟩⟩]⟩
          ⟨⟨1, 1, 1⟩, ⟨0, 0, -2, 1⟩⟩ ⟨0, 0, -1, 1⟩)) / (2 : ℚ) = ⟨1, 1, 1⟩ ∧
    (⟨3 / 2, 3 / 2, 3 / 2⟩ : Colour) ≠ ⟨1, 1, 1⟩ := by
  have hsh : World.isShadowedBy probeFops
      ⟨[], [⟨⟨1, 1, 1⟩, ⟨0, 0, -2, 1⟩⟩, ⟨⟨1, 1, 1⟩, ⟨0, 0, -2, 1⟩⟩]⟩
      ⟨⟨1, 1, 1⟩, ⟨0, 0, -2, 1⟩⟩ ⟨0, 0, -1, 1⟩ = false := by
    norm_num [World.isShadowedBy, World.intersectWorld, hit, minByT, List.filter,
      List.insertionSort]
  have hlight : lighting probeFops (Sphere.new 0).material ⟨⟨1, 1, 1⟩, ⟨0, 0, -2, 1⟩⟩
      ⟨0, 0, -1, 1⟩ ⟨0, 0, 1, 0⟩ ⟨0, 0, -1, 0⟩ false = ⟨1, 1, 1⟩ := by
    norm_num [lighting, Sphere.new, Material.default, Tuple.normalize, Tuple.magnitude,
      Tuple.dot, Tuple.reflect, tuple_sub_def, tuple_neg_def, tuple_smul_def,
      colour_mul_def, colour_smul_def, colour_add_def, probeFops, Colour.BLACK]
  refine ⟨?_, ?_, ?_⟩
  · norm_num [World.shadeHit, hsh, hlight, colour_add_def, colour_sdiv_def]
  · rw [hsh, hlight]
    norm_num [colour_add_def, colour_sdiv_def]
  · intro h
    have := congrArg Colour.red h
    norm_num at this

end RT
